import Mathlib

/-!
Verification of the chunked-transcription pipeline of the
AIVideoSubtitleGenerator source (src/index.tsx).

The source is a TypeScript program.  Numbers that the program manipulates
(durations in seconds, audio samples, chunk boundaries) are modelled as
rationals: every concrete value appearing in the verified scenarios is
exactly representable as an IEEE double and the arithmetic performed on it
(addition of the exactly-representable constant 30, `min`, comparison,
multiplication by small powers of two at exactly representable points) is
exact, so the rational model agrees with the JavaScript semantics there.
JavaScript-specific primitives (truncation to integer, `%`, `lastIndexOf`,
`substring`, `padStart`, `trim`, `replace(/\n/g)`) are modelled explicitly
below, each next to the function that uses it.
-/

namespace SubGen

/-- JavaScript ToInteger / `x | 0` style truncation toward zero of a finite
numeric value (floor for non-negative values, ceiling for negative ones). -/
def jsTrunc (q : ℚ) : ℤ := if q < 0 then ⌈q⌉ else ⌊q⌋

/-! ## Chunk segmentation (transcribeAudio, src/index.tsx lines 196-206)

The source is the loop
`for (let i = 0; i < audioDuration; i += CHUNK_SECONDS)` with
`startTime = i`, `endTime = Math.min(i + CHUNK_SECONDS, audioDuration)`,
and `chunkCount = Math.ceil(audioDuration / CHUNK_SECONDS)`.
`chunkLoop` is the loop body with an explicit fuel argument; the loop
variable `i` only ever takes values `0, 30, 60, ...`, all exact doubles,
and runs exactly `chunkCount` times, so giving it `chunkCount` fuel
reproduces the loop. -/

/-- The fixed window size `CHUNK_SECONDS = 30` (line 196). -/
def CHUNK_SECONDS : ℚ := 30

/-- The value `Math.ceil(audioDuration / CHUNK_SECONDS)` (line 199), as a natural
number (the duration is non-negative in every run). -/
def chunkCount (D : ℚ) : ℕ := (⌈D / CHUNK_SECONDS⌉).toNat

/-- The chunk loop of `transcribeAudio` (line 201): starting at time `i`,
while `i < D` emit the range `(i, min (i + 30) D)` and advance by 30. -/
def chunkLoop (D : ℚ) : ℕ → ℚ → List (ℚ × ℚ)
  | 0, _ => []
  | fuel + 1, i =>
      if i < D then (i, min (i + CHUNK_SECONDS) D) :: chunkLoop D fuel (i + CHUNK_SECONDS)
      else []

/-- The ordered sequence of chunk ranges the loop produces for duration `D`. -/
def chunkRanges (D : ℚ) : List (ℚ × ℚ) := chunkLoop D (chunkCount D) 0

lemma lt_chunkCount_iff {D : ℚ} {k : ℕ} :
    k < chunkCount D ↔ (k : ℚ) * CHUNK_SECONDS < D := by
  have h30 : (0:ℚ) < CHUNK_SECONDS := by norm_num [CHUNK_SECONDS]
  rw [chunkCount, Int.lt_toNat, Int.lt_ceil]
  push_cast
  exact lt_div_iff₀ h30

/-- The chunk loop started at `i = 30 * k` with enough fuel enumerates the
ranges of chunk indices `k, k+1, ..., chunkCount D - 1`. -/
lemma chunkLoop_eq (D : ℚ) :
    ∀ (fuel k : ℕ), chunkCount D ≤ k + fuel →
      chunkLoop D fuel ((k : ℚ) * CHUNK_SECONDS) =
        (List.range' k (chunkCount D - k)).map
          (fun (j : ℕ) => ((j : ℚ) * CHUNK_SECONDS,
                     min ((j : ℚ) * CHUNK_SECONDS + CHUNK_SECONDS) D)) := by
  intro fuel
  induction fuel with
  | zero =>
      intro k hk
      have : chunkCount D - k = 0 := by omega
      simp [chunkLoop, this]
  | succ fuel ih =>
      intro k hk
      by_cases h : (k : ℚ) * CHUNK_SECONDS < D
      · have hk' : k < chunkCount D := lt_chunkCount_iff.mpr h
        have hsub : chunkCount D - k = (chunkCount D - (k + 1)) + 1 := by omega
        rw [chunkLoop, if_pos h, hsub, List.range'_succ, List.map_cons]
        have hstep : (k : ℚ) * CHUNK_SECONDS + CHUNK_SECONDS
            = ((k + 1 : ℕ) : ℚ) * CHUNK_SECONDS := by push_cast; ring
        rw [hstep, ih (k + 1) (by omega)]
      · have hk' : chunkCount D ≤ k := by
          by_contra hcon
          exact h (lt_chunkCount_iff.mp (by omega))
        have : chunkCount D - k = 0 := by omega
        rw [chunkLoop, if_neg h, this]
        simp

/-- Closed form of the chunk ranges: chunk `j` covers
`[30 j, min (30 j + 30) D)`. -/
lemma chunkRanges_eq (D : ℚ) :
    chunkRanges D =
      (List.range (chunkCount D)).map
        (fun (j : ℕ) => ((j : ℚ) * CHUNK_SECONDS,
                   min ((j : ℚ) * CHUNK_SECONDS + CHUNK_SECONDS) D)) := by
  have h := chunkLoop_eq D (chunkCount D) 0 (by omega)
  simpa [chunkRanges, List.range_eq_range'] using h

lemma rat_le_chunkCount (D : ℚ) : D ≤ (chunkCount D : ℚ) * CHUNK_SECONDS := by
  by_contra h
  push_neg at h
  have := lt_chunkCount_iff.mpr h
  omega

/-- The chunk ranges are ordered by start time and pairwise disjoint
(each range ends no later than any later range starts). -/
lemma chunkRanges_pairwise (D : ℚ) :
    List.Pairwise (fun a b => a.1 < b.1 ∧ a.2 ≤ b.1) (chunkRanges D) := by
  rw [chunkRanges_eq, List.pairwise_map]
  refine (List.pairwise_lt_range _).imp ?_
  intro a b hab
  have h30 : (0:ℚ) < CHUNK_SECONDS := by norm_num [CHUNK_SECONDS]
  have hcast : (a:ℚ) + 1 ≤ (b:ℚ) := by exact_mod_cast hab
  constructor
  · exact mul_lt_mul_of_pos_right (by exact_mod_cast hab) h30
  · calc min ((a:ℚ) * CHUNK_SECONDS + CHUNK_SECONDS) D
        ≤ (a:ℚ) * CHUNK_SECONDS + CHUNK_SECONDS := min_le_left _ _
      _ = ((a:ℚ) + 1) * CHUNK_SECONDS := by ring
      _ ≤ (b:ℚ) * CHUNK_SECONDS := by nlinarith

/-- The number of chunk ranges is `chunkCount D`. -/
lemma chunkRanges_length (D : ℚ) : (chunkRanges D).length = chunkCount D := by
  rw [chunkRanges_eq]
  simp

/-- The property package claim C1 asserts of the chunk loop for duration
`D`: `ceil(D/30)` chunks, empty at zero, contiguous, non-overlapping and
ordered, every chunk non-empty and at most one window long, first chunk
starting at 0 and last chunk ending at `D`. -/
def ChunkRangesSpec (D : ℚ) : Prop :=
  ((chunkRanges D).length : ℤ) = ⌈D / CHUNK_SECONDS⌉ ∧
  (D = 0 → chunkRanges D = []) ∧
  List.Chain' (fun a b => a.2 = b.1) (chunkRanges D) ∧
  List.Pairwise (fun a b => a.1 < b.1 ∧ a.2 ≤ b.1) (chunkRanges D) ∧
  (∀ r ∈ chunkRanges D, r.1 < r.2 ∧ r.2 ≤ r.1 + CHUNK_SECONDS) ∧
  (0 < D → (chunkRanges D).head?.map Prod.fst = some 0 ∧
           (chunkRanges D).getLast?.map Prod.snd = some D)

/-- C1: for every duration `D ≥ 0` the chunk loop of `transcribeAudio`
produces an ordered, non-overlapping, contiguous sequence of
`ceil(D/30)` chunk ranges (none when `D = 0`) that starts at 0, ends at
`D`, and whose chunks are all non-empty and at most 30 seconds long. -/
theorem c1_chunk_ranges (D : ℚ) (hD : 0 ≤ D) : ChunkRangesSpec D := by
  have hceil : (0:ℤ) ≤ ⌈D / CHUNK_SECONDS⌉ :=
    Int.ceil_nonneg (div_nonneg hD (by norm_num [CHUNK_SECONDS]))
  refine ⟨?_, ?_, ?_, ?_, ?_, ?_⟩
  · rw [chunkRanges_eq]
    simp only [List.length_map, List.length_range]
    simp [chunkCount, Int.toNat_of_nonneg hceil]
  · intro h
    subst h
    simp [chunkRanges_eq, chunkCount]
  · rw [chunkRanges_eq, List.chain'_iff_get]
    intro i hi
    simp only [List.length_map, List.length_range] at hi
    simp only [List.get_eq_getElem, List.getElem_map, List.getElem_range]
    have hi1 : i + 1 < chunkCount D := by omega
    have hlt : ((i:ℚ) + 1) * CHUNK_SECONDS < D := by
      have := lt_chunkCount_iff.mp hi1
      push_cast at this ⊢
      linarith
    have : (i:ℚ) * CHUNK_SECONDS + CHUNK_SECONDS = ((i:ℚ) + 1) * CHUNK_SECONDS := by ring
    rw [this, min_eq_left (le_of_lt hlt)]
    push_cast
    ring
  · exact chunkRanges_pairwise D
  · rw [chunkRanges_eq]
    intro r hr
    rcases List.mem_map.mp hr with ⟨j, hj, rfl⟩
    rw [List.mem_range] at hj
    have hlt : (j:ℚ) * CHUNK_SECONDS < D := lt_chunkCount_iff.mp hj
    have h30 : (0:ℚ) < CHUNK_SECONDS := by norm_num [CHUNK_SECONDS]
    dsimp only
    constructor
    · exact lt_min (by linarith) hlt
    · exact min_le_left _ _
  · intro hpos
    have hn : 0 < chunkCount D := by
      have : (0:ℚ) * CHUNK_SECONDS < D := by
        rw [zero_mul]; exact hpos
      exact Nat.pos_of_ne_zero (fun h => by
        have := lt_chunkCount_iff.mpr this
        omega)
    obtain ⟨m, hm⟩ : ∃ m, chunkCount D = m + 1 := ⟨chunkCount D - 1, by omega⟩
    constructor
    · rw [chunkRanges_eq, hm, List.range_succ_eq_map]
      simp
    · rw [chunkRanges_eq, hm, List.range_succ, List.map_append]
      simp only [List.map_cons, List.map_nil, List.getLast?_concat]
      have hD' : D ≤ (m:ℚ) * CHUNK_SECONDS + CHUNK_SECONDS := by
        have := rat_le_chunkCount D
        rw [hm] at this
        push_cast at this
        linarith
      simp [min_eq_right hD']

/-- Concrete instance of C1 at duration 65. -/
theorem c1_chunk_ranges_witness : ChunkRangesSpec 65 :=
  c1_chunk_ranges 65 (by norm_num)

/-! ## 16-bit PCM quantization (audioBufferToWavBase64, lines 161-169) -/

/-- One sample of the quantization loop of `audioBufferToWavBase64`
(lines 163-164):
`sample = Math.max(-1, Math.min(1, channels[i][offset]))` followed by
`sample = (0.5 + sample < 0 ? sample * 32768 : sample * 32767) | 0`.
JavaScript operator precedence parses the condition as
`(0.5 + sample) < 0`, and `| 0` truncates toward zero (the scaled values
lie well inside the int32 range, so no wrap-around occurs). -/
def quantizeSample (x : ℚ) : ℤ :=
  let sample := max (-1) (min 1 x)
  if 0.5 + sample < 0 then jsTrunc (sample * 32768) else jsTrunc (sample * 32767)

lemma clamp_of_mem {x : ℚ} (h1 : -1 ≤ x) (h2 : x ≤ 1) : max (-1 : ℚ) (min 1 x) = x := by
  rw [min_eq_right h2, max_eq_right h1]

lemma floor_eval {q : ℚ} {z : ℤ} (h1 : (z:ℚ) ≤ q) (h2 : q < z + 1) : ⌊q⌋ = z :=
  Int.floor_eq_iff.mpr ⟨h1, h2⟩

lemma ceil_eval {q : ℚ} {z : ℤ} (h1 : (z:ℚ) - 1 < q) (h2 : q ≤ z) : ⌈q⌉ = z :=
  Int.ceil_eq_iff.mpr ⟨h1, h2⟩

lemma jsTrunc_eval_nonneg {q : ℚ} {z : ℤ} (h0 : 0 ≤ q) (h1 : (z:ℚ) ≤ q)
    (h2 : q < z + 1) : jsTrunc q = z := by
  rw [jsTrunc, if_neg (not_lt.mpr h0)]
  exact floor_eval h1 h2

lemma jsTrunc_eval_neg {q : ℚ} {z : ℤ} (h0 : q < 0) (h1 : (z:ℚ) - 1 < q)
    (h2 : q ≤ z) : jsTrunc q = z := by
  rw [jsTrunc, if_pos h0]
  exact ceil_eval h1 h2

/-- C2 is false as stated: the clamped sample `-1/4` is negative, yet the
code scales it by 32767 and truncates, producing `-8191`; scaling the
clamped value by 32768 as the claim prescribes would give `-8192`.  The
source condition parses as `(0.5 + sample) < 0`, so only samples below
`-1/2` are scaled by 32768. -/
theorem c2_counterexample :
    max (-1 : ℚ) (min 1 (-1/4)) < 0 ∧
    quantizeSample (-1/4) = -8191 ∧
    jsTrunc (max (-1 : ℚ) (min 1 (-1/4)) * 32768) = -8192 := by
  have hc : max (-1 : ℚ) (min 1 (-1/4)) = -1/4 := clamp_of_mem (by norm_num) (by norm_num)
  refine ⟨by rw [hc]; norm_num, ?_, ?_⟩
  · rw [quantizeSample]
    simp only [hc]
    rw [if_neg (by norm_num)]
    exact jsTrunc_eval_neg (by norm_num) (by push_cast; norm_num) (by push_cast; norm_num)
  · rw [hc]
    exact jsTrunc_eval_neg (by norm_num) (by push_cast; norm_num) (by push_cast; norm_num)

/-- C2 amended: every sample is first clamped to `[-1, 1]`; a clamped
sample strictly below `-1/2` is scaled by 32768 and a clamped sample at or
above `-1/2` (in particular every non-negative one) by 32767 before
truncation; `1.0` encodes to `32767`, `-1.0` to `-32768`, and `1.5`
encodes identically to `1.0`. -/
theorem c2_amended_quantization :
    (∀ x : ℚ, max (-1) (min 1 x) < -(1/2) →
        quantizeSample x = jsTrunc (max (-1) (min 1 x) * 32768)) ∧
    (∀ x : ℚ, -(1/2) ≤ max (-1) (min 1 x) →
        quantizeSample x = jsTrunc (max (-1) (min 1 x) * 32767)) ∧
    (∀ x : ℚ, 1 ≤ x → quantizeSample x = quantizeSample 1) ∧
    (∀ x : ℚ, x ≤ -1 → quantizeSample x = quantizeSample (-1)) ∧
    quantizeSample 1 = 32767 ∧
    quantizeSample (-1) = -32768 ∧
    quantizeSample (3/2) = quantizeSample 1 := by
  have hone : quantizeSample 1 = 32767 := by
    have hc : max (-1 : ℚ) (min 1 (1:ℚ)) = 1 := clamp_of_mem (by norm_num) (by norm_num)
    rw [quantizeSample]
    simp only [hc]
    rw [if_neg (by norm_num)]
    exact jsTrunc_eval_nonneg (by norm_num) (by push_cast; norm_num) (by push_cast; norm_num)
  have hmone : quantizeSample (-1) = -32768 := by
    have hc : max (-1 : ℚ) (min 1 (-1:ℚ)) = -1 := clamp_of_mem (by norm_num) (by norm_num)
    rw [quantizeSample]
    simp only [hc]
    rw [if_pos (by norm_num)]
    exact jsTrunc_eval_neg (by norm_num) (by push_cast; norm_num) (by push_cast; norm_num)
  refine ⟨?_, ?_, ?_, ?_, hone, hmone, ?_⟩
  · intro x hx
    rw [quantizeSample, if_pos (by linarith)]
  · intro x hx
    rw [quantizeSample, if_neg (by simp only [not_lt]; linarith)]
  · intro x hx
    have hc : max (-1 : ℚ) (min 1 x) = 1 := by
      rw [min_eq_left hx, max_eq_right (by norm_num)]
    rw [quantizeSample]
    simp only [hc]
    rw [if_neg (by norm_num), hone]
    exact jsTrunc_eval_nonneg (by norm_num) (by push_cast; norm_num) (by push_cast; norm_num)
  · intro x hx
    have hc : max (-1 : ℚ) (min 1 x) = -1 := by
      rw [min_eq_right (by linarith), max_eq_left (by linarith)]
    rw [quantizeSample]
    simp only [hc]
    rw [if_pos (by norm_num), hmone]
    exact jsTrunc_eval_neg (by norm_num) (by push_cast; norm_num) (by push_cast; norm_num)
  · have hc : max (-1 : ℚ) (min 1 (3/2 : ℚ)) = 1 := by
      rw [min_eq_left (by norm_num), max_eq_right (by norm_num)]
    rw [quantizeSample]
    simp only [hc]
    rw [if_neg (by norm_num), hone]
    exact jsTrunc_eval_nonneg (by norm_num) (by push_cast; norm_num) (by push_cast; norm_num)

/-- Concrete instance of the amended C2 at sample `-3/4` (scaled by 32768). -/
theorem c2_amended_quantization_witness :
    quantizeSample (-3/4) = jsTrunc (max (-1 : ℚ) (min 1 (-3/4)) * 32768) :=
  c2_amended_quantization.1 (-3/4)
    (by rw [clamp_of_mem (by norm_num) (by norm_num)]; norm_num)

/-! ## WAV container bytes (audioBufferToWavBase64, lines 122-169)

The `AudioBuffer` structure mirrors the Web Audio object the source reads:
channel count, sample rate, frame count (`buffer.length`) and per-channel
sample data (`buffer.getChannelData(ch)[frame]`).  `wavBytes` is the byte
content of the `ArrayBuffer` the function fills before base64 encoding:
a 44-byte RIFF/WAVE header written with the little-endian `setUint16` /
`setUint32` helpers, followed by the interleaved quantized samples
(`view.setInt16(pos, sample, true)`, two bytes per sample, frames outer,
channels inner, while `pos < length`). -/

structure AudioBuffer where
  numberOfChannels : ℕ
  sampleRate : ℕ
  length : ℕ
  channelData : ℕ → ℕ → ℚ

/-- Little-endian bytes written by `setUint16`. -/
def u16le (n : ℕ) : List ℕ := [n % 256, n / 256 % 256]

/-- Little-endian bytes written by `setUint32`. -/
def u32le (n : ℕ) : List ℕ :=
  [n % 256, n / 256 % 256, n / 65536 % 256, n / 16777216 % 256]

/-- Little-endian bytes written by `setInt16` (two's complement). -/
def i16le (z : ℤ) : List ℕ := u16le (z % 65536).toNat

/-- The total byte count `length = buffer.length * numOfChan * 2 + 44` (line 124). -/
def wavTotalLength (b : AudioBuffer) : ℕ :=
  b.length * b.numberOfChannels * 2 + 44

/-- The 44 header bytes (lines 133-145). -/
def wavHeader (b : AudioBuffer) : List ℕ :=
  u32le 0x46464952 ++ u32le (wavTotalLength b - 8) ++ u32le 0x45564157 ++
  u32le 0x20746d66 ++ u32le 16 ++ u16le 1 ++ u16le b.numberOfChannels ++
  u32le b.sampleRate ++ u32le (b.sampleRate * 2 * b.numberOfChannels) ++
  u16le (b.numberOfChannels * 2) ++ u16le 16 ++ u32le 0x61746164 ++
  u32le (wavTotalLength b - 44)

/-- The interleaved sample bytes (lines 161-169). -/
def wavDataBytes (b : AudioBuffer) : List ℕ :=
  (List.range b.length).flatMap fun off =>
    (List.range b.numberOfChannels).flatMap fun ch =>
      i16le (quantizeSample (b.channelData ch off))

/-- The full binary payload of `audioBufferToWavBase64` before the
base64 text encoding. -/
def wavBytes (b : AudioBuffer) : List ℕ := wavHeader b ++ wavDataBytes b

lemma length_flatMap_const {α : Type} (l : List α) (f : α → List ℕ) (c : ℕ)
    (h : ∀ a, (f a).length = c) : (l.flatMap f).length = l.length * c := by
  induction l with
  | nil => simp
  | cons a t ih =>
      simp only [List.flatMap_cons, List.length_append, ih, h, List.length_cons]
      ring

lemma wavHeader_length (b : AudioBuffer) : (wavHeader b).length = 44 := by
  simp [wavHeader, u16le, u32le]

lemma wavDataBytes_length (b : AudioBuffer) :
    (wavDataBytes b).length = b.length * b.numberOfChannels * 2 := by
  rw [wavDataBytes,
    length_flatMap_const _ _ (b.numberOfChannels * 2) (fun off => by
      rw [length_flatMap_const _ _ 2 (fun ch => by rfl)]
      simp)]
  simp [Nat.mul_assoc]

/-- C5: for every buffer of silence with `N` frames, `C` channels and rate
`R`, the binary payload built by `audioBufferToWavBase64` is exactly
`44 + N * C * 2` bytes long and its header records the channel count at
offset 22, the sample rate at offset 24 and 16 bits per sample at
offset 34. -/
theorem c5_wav_silence (b : AudioBuffer)
    (hsil : ∀ ch off, b.channelData ch off = 0) :
    (wavBytes b).length = 44 + b.length * b.numberOfChannels * 2 ∧
    ((wavBytes b).drop 22).take 2 = u16le b.numberOfChannels ∧
    ((wavBytes b).drop 24).take 4 = u32le b.sampleRate ∧
    ((wavBytes b).drop 34).take 2 = u16le 16 := by
  refine ⟨?_, ?_, ?_, ?_⟩
  · rw [wavBytes, List.length_append, wavHeader_length, wavDataBytes_length]
  all_goals
    simp only [wavBytes, wavHeader, u16le, u32le, List.cons_append, List.nil_append,
      List.drop_succ_cons, List.drop_zero, List.take_succ_cons, List.take_zero]

/-- Concrete instance of C5: 3 frames of stereo silence at 8000 Hz. -/
theorem c5_wav_silence_witness :
    (wavBytes ⟨2, 8000, 3, fun _ _ => 0⟩).length = 44 + 3 * 2 * 2 ∧
    ((wavBytes ⟨2, 8000, 3, fun _ _ => 0⟩).drop 22).take 2 = u16le 2 ∧
    ((wavBytes ⟨2, 8000, 3, fun _ _ => 0⟩).drop 24).take 4 = u32le 8000 ∧
    ((wavBytes ⟨2, 8000, 3, fun _ _ => 0⟩).drop 34).take 2 = u16le 16 :=
  c5_wav_silence ⟨2, 8000, 3, fun _ _ => 0⟩ (fun _ _ => rfl)

/-! ## Timestamp formatting (formatTimeVTT, lines 99-103)

The source is
`const date = new Date(0); date.setSeconds(seconds);`
`return date.toISOString().substr(11, 12);`.
`Date.prototype.setSeconds` truncates its argument toward zero
(ToIntegerOrInfinity), the resulting instant is `t * 1000` milliseconds,
and `toISOString().substr(11, 12)` renders the time-of-day of that
instant: hours, minutes and seconds of `t` modulo 86400 (Euclidean, the
day is taken from the calendar date), each zero-padded to two digits,
followed by the literal millisecond field, which is always `.000` here
because `setSeconds` already truncated to a whole second. -/

/-- Two-digit zero padding: renders `n` in decimal and left-pads with `0`
to width 2 (the behaviour of both `toISOString` fields and of
`String(n).padStart(2, '0')` on a non-negative integer). -/
def pad2 (n : ℕ) : String := if n < 10 then "0" ++ toString n else toString n

/-- The function `formatTimeVTT` (lines 99-103). -/
def formatTimeVTT (seconds : ℚ) : String :=
  let n := ((jsTrunc seconds) % 86400).toNat
  pad2 (n / 3600) ++ ":" ++ pad2 (n % 3600 / 60) ++ ":" ++ pad2 (n % 60) ++ ".000"

/-- Character classifier used to state the timestamp shape: every digit
maps to `d`, every other character to itself. -/
def charShape (c : Char) : Char := if c.isDigit then 'd' else c

/-- The `HH:MM:SS.mmm` shape: two digits, colon, two digits, colon, two
digits, dot, three digits. -/
def vttStampShape : List Char :=
  ['d', 'd', ':', 'd', 'd', ':', 'd', 'd', '.', 'd', 'd', 'd']

lemma pad2_shape : ∀ n, n < 100 → (pad2 n).data.map charShape = ['d', 'd'] := by decide

lemma formatTimeVTT_shape (q : ℚ) :
    (formatTimeVTT q).data.map charShape = vttStampShape := by
  rw [formatTimeVTT]
  have h1 : 0 ≤ jsTrunc q % 86400 := Int.emod_nonneg _ (by norm_num)
  have h2 : jsTrunc q % 86400 < 86400 := Int.emod_lt_of_pos _ (by norm_num)
  have hn : ((jsTrunc q) % 86400).toNat < 86400 := by omega
  have ha : ((jsTrunc q) % 86400).toNat / 3600 < 100 := by omega
  have hb : ((jsTrunc q) % 86400).toNat % 3600 / 60 < 100 := by omega
  have hc : ((jsTrunc q) % 86400).toNat % 60 < 100 := by omega
  simp only [String.data_append, List.map_append, pad2_shape _ ha, pad2_shape _ hb,
    pad2_shape _ hc]
  rfl

/-- C10: for `0 ≤ s < 86400`, `formatTimeVTT` renders `floor(s)` — the
fractional part is truncated before formatting, the rendered fields are
exactly the hour, minute and second fields of `floor(s)`, and the
millisecond field is the constant `000`; in particular
`formatTimeVTT 65.9 = "00:01:05.000"`. -/
theorem c10_formatTimeVTT_truncates :
    (∀ s : ℚ, 0 ≤ s → s < 86400 →
        formatTimeVTT s = formatTimeVTT ((⌊s⌋ : ℤ) : ℚ) ∧
        formatTimeVTT s =
          pad2 ((⌊s⌋).toNat / 3600) ++ ":" ++ pad2 ((⌊s⌋).toNat % 3600 / 60) ++ ":" ++
            pad2 ((⌊s⌋).toNat % 60) ++ ".000") ∧
    formatTimeVTT (659/10) = "00:01:05.000" := by
  constructor
  · intro s hs0 hs1
    have htr : jsTrunc s = ⌊s⌋ := by
      rw [jsTrunc, if_neg (not_lt.mpr hs0)]
    have hf0 : 0 ≤ ⌊s⌋ := Int.floor_nonneg.mpr hs0
    have hf1 : ⌊s⌋ < 86400 := by
      have : (⌊s⌋ : ℚ) ≤ s := Int.floor_le s
      exact_mod_cast lt_of_le_of_lt this hs1
    have hmod : ⌊s⌋ % 86400 = ⌊s⌋ := Int.emod_emod_of_dvd _ dvd_rfl ▸ Int.emod_eq_of_lt hf0 hf1
    constructor
    · rw [formatTimeVTT, formatTimeVTT, htr]
      have : jsTrunc ((⌊s⌋ : ℤ) : ℚ) = ⌊s⌋ := by
        rw [jsTrunc]
        split
        · exact_mod_cast Int.ceil_intCast ⌊s⌋
        · exact_mod_cast Int.floor_intCast ⌊s⌋
      rw [this]
    · rw [formatTimeVTT, htr, hmod]
  · have htr : jsTrunc (659/10 : ℚ) = 65 :=
      jsTrunc_eval_nonneg (by norm_num) (by push_cast; norm_num) (by push_cast; norm_num)
    rw [formatTimeVTT, htr]
    decide

/-- Concrete instance of the universal part of C10 at `s = 65.9`. -/
theorem c10_formatTimeVTT_truncates_witness :
    formatTimeVTT (659/10) = formatTimeVTT ((⌊(659/10 : ℚ)⌋ : ℤ) : ℚ) :=
  (c10_formatTimeVTT_truncates.1 (659/10) (by norm_num) (by norm_num)).1

/-! ## ETA formatting (formatRemainingTime, lines 108-117)

The input of `formatRemainingTime` is an arbitrary JavaScript number, so
the model is a tagged variant: NaN, the two infinities, or a finite value.
The source guard is `isNaN(seconds) || seconds < 0 || !isFinite(seconds)`;
a NaN comparison and `Infinity < 0` are false, `-Infinity < 0` is true.
After the guard only non-negative finite values remain, on which
`Math.floor(seconds / 60)` is the rational floor, `seconds % 60` is
`seconds - 60 * floor(seconds / 60)` (truncated remainder, equal to the
floored one on non-negative input) and `Math.round(x)` is
`floor(x + 0.5)`. -/

inductive JsNum where
  | nan : JsNum
  | posInf : JsNum
  | negInf : JsNum
  | fin : ℚ → JsNum

/-- Predicate `isNaN(x)`. -/
def jsIsNaN : JsNum → Bool
  | .nan => true
  | _ => false

/-- Predicate `isFinite(x)`. -/
def jsIsFinite : JsNum → Bool
  | .fin _ => true
  | _ => false

/-- Comparison `x < 0`. -/
def jsLtZero : JsNum → Bool
  | .nan => false
  | .posInf => false
  | .negInf => true
  | .fin q => decide (q < 0)

/-- The function `formatRemainingTime` (lines 108-117).  The fallthrough arm of the
match is unreachable: the guard already returned on every non-finite
input. -/
def formatRemainingTime (x : JsNum) : String :=
  if jsIsNaN x || jsLtZero x || !jsIsFinite x then "--:--"
  else
    match x with
    | .fin q =>
        let minutes := (⌊q / 60⌋).toNat
        let remainingSeconds := (⌊q - 60 * ((⌊q / 60⌋ : ℤ) : ℚ) + 1/2⌋).toNat
        pad2 minutes ++ ":" ++ pad2 remainingSeconds
    | _ => "--:--"

/-- C7: `formatRemainingTime` yields `--:--` on NaN, on every negative
input and on both infinities (in particular on NaN, `-5` and `Infinity`),
and yields `02:05` on input 125. -/
theorem c7_formatRemainingTime :
    (∀ q : ℚ, q < 0 → formatRemainingTime (.fin q) = "--:--") ∧
    formatRemainingTime .nan = "--:--" ∧
    formatRemainingTime .posInf = "--:--" ∧
    formatRemainingTime .negInf = "--:--" ∧
    formatRemainingTime (.fin (-5)) = "--:--" ∧
    formatRemainingTime (.fin 125) = "02:05" := by
  have hneg : ∀ q : ℚ, q < 0 → formatRemainingTime (.fin q) = "--:--" := by
    intro q hq
    rw [formatRemainingTime, if_pos]
    simp [jsIsNaN, jsLtZero, jsIsFinite, hq]
  refine ⟨hneg, rfl, rfl, rfl, hneg (-5) (by norm_num), ?_⟩
  have hguard : (jsIsNaN (.fin (125:ℚ)) || jsLtZero (.fin 125) || !jsIsFinite (.fin 125)) = false := by
    simp [jsIsNaN, jsLtZero, jsIsFinite]
  rw [formatRemainingTime, hguard, if_neg Bool.false_ne_true]
  show pad2 (⌊(125:ℚ) / 60⌋).toNat ++ ":" ++
      pad2 (⌊(125:ℚ) - 60 * ((⌊(125:ℚ) / 60⌋ : ℤ) : ℚ) + 1/2⌋).toNat = "02:05"
  have hm : (⌊(125:ℚ) / 60⌋ : ℤ) = 2 :=
    floor_eval (by push_cast; norm_num) (by push_cast; norm_num)
  rw [hm]
  have hr : (⌊(125:ℚ) - 60 * ((2:ℤ) : ℚ) + 1/2⌋ : ℤ) = 5 :=
    floor_eval (by push_cast; norm_num) (by push_cast; norm_num)
  rw [hr]
  decide

/-- Concrete instance of the universal part of C7 at `-5`. -/
theorem c7_formatRemainingTime_witness :
    formatRemainingTime (.fin (-5)) = "--:--" :=
  c7_formatRemainingTime.1 (-5) (by norm_num)

/-! ## Download file name (downloadVttFile, lines 331-333)

The source is
`const baseName = originalFileName.substring(0,`
`  originalFileName.lastIndexOf('.') || originalFileName.length);`
`a.download = baseName + '.vtt';` (template literal).
`lastIndexOf` returns the index of the last `.` or `-1`; `||` falls
through only when the left operand is `0` (falsy); `substring(0, e)`
clamps `e` into `[0, length]`. -/

/-- The value `name.lastIndexOf('.')`: index of the last dot, `-1` when absent. -/
def lastIndexOfDot : List Char → ℤ
  | [] => -1
  | c :: rest =>
      let r := lastIndexOfDot rest
      if 0 ≤ r then r + 1
      else if c = '.' then 0 else -1

/-- The download attribute value built by `downloadVttFile`. -/
def downloadFileName (name : String) : String :=
  let idx := lastIndexOfDot name.data
  let stop := if idx = 0 then (name.data.length : ℤ) else idx
  String.mk (name.data.take stop.toNat) ++ ".vtt"

/-- C9 is a code bug: `lastIndexOf` returns `-1` when the name has no
dot, and `-1` is truthy, so the `|| originalFileName.length` fallback —
evidently intended to keep the whole extensionless name — never applies:
`substring(0, -1)` clamps to the empty string and the file downloads as
`.vtt` instead of `video.vtt`.  For a name with a dot at a positive
index the code behaves as the claim says. -/
theorem c9_download_name_eval :
    downloadFileName "video" = ".vtt" ∧
    downloadFileName "video.mp4" = "video.vtt" := by
  constructor <;> rfl


/-! ## Transcription orchestration (transcribeAudio lines 186-249,
generateSubtitles lines 254-315)

The remote transcription capability is abstracted as an oracle
`respond : ℕ → Option String` giving, per 0-based chunk index, the text of
the provider response (`response.text`), or `none` when the call rejects,
which the `await` turns into an exception that aborts the loop.  The
cancellation flag is shared mutable state set from outside the loop; the
loop reads it once per iteration (line 202) and `generateSubtitles` reads
it once more after the loop returns (line 277).  `cancel j` is the value
read at the boundary check before chunk `j`; the post-loop read is
modelled as `cancel (chunkCount D)`, which is faithful because the flag
is only ever set, never cleared, during a run.  The per-chunk audio
slicing and WAV encoding (lines 219-235) feed only the remote call and
are covered by the `wavBytes` development above; the orchestration values
track which chunk indices reach the remote call (the first component). -/

/-- The initial accumulator `"WEBVTT\n\n"` (line 198). -/
def VTT_HEADER : String := "WEBVTT\n\n"

/-- The normalization `response.text.trim().replace(/\n/g, ' ')` (line 243): strip
whitespace from both ends, then replace every newline with a space. -/
def normalizeText (s : String) : String :=
  String.mk ((((s.data.dropWhile Char.isWhitespace).reverse.dropWhile
      Char.isWhitespace).reverse).map fun c => if c = '\n' then ' ' else c)

/-- One appended cue block (line 245):
timestamp line, newline, cue text, blank line. -/
def cueBlock (s e : ℚ) (text : String) : String :=
  formatTimeVTT s ++ " --> " ++ formatTimeVTT e ++ "\n" ++ text ++ "\n\n"

/-- The chunk loop of `transcribeAudio` (lines 201-247) over its list of
chunk ranges, carrying the 0-based chunk index and the accumulated
document.  Returns the chunk indices whose remote call was invoked,
together with either the final document (`ok`, also reached by the
cancellation `break`) or `error` when the remote call failed. -/
def runChunks (respond : ℕ → Option String) (cancel : ℕ → Bool) :
    ℕ → List (ℚ × ℚ) → String → List ℕ × Except Unit String
  | _, [], acc => ([], .ok acc)
  | k, r :: rest, acc =>
      if cancel k then ([], .ok acc)
      else
        match respond k with
        | none => ([k], .error ())
        | some raw =>
            let t := normalizeText raw
            let acc' := if t = "" then acc else acc ++ cueBlock r.1 r.2 t
            let res := runChunks respond cancel (k + 1) rest acc'
            (k :: res.1, res.2)

/-- The function `transcribeAudio` for a decoded duration `D`. -/
def transcribeAudio (respond : ℕ → Option String) (cancel : ℕ → Bool) (D : ℚ) :
    List ℕ × Except Unit String :=
  runChunks respond cancel 0 (chunkRanges D) VTT_HEADER

/-- Terminal status of `generateSubtitles` (which status message is
shown and which controls are restored). -/
inductive Outcome where
  | completed : Outcome
  | cancelled : Outcome
  | failed : Outcome
  | empty : Outcome
deriving DecidableEq

/-- The function `generateSubtitles` (lines 254-315): run `transcribeAudio`, catch its
failure (leaving the document null), then check the cancellation flag and
return early on cancellation storing nothing; otherwise store and surface
the document only when it is longer than the bare header
(`hasSubtitles`, line 285).  The second component is `generatedVttContent`
as set by this run: `none` means no document was surfaced to the caller
(no track attached, nothing downloadable from this run). -/
def generateSubtitles (respond : ℕ → Option String) (cancel : ℕ → Bool) (D : ℚ) :
    Outcome × Option String :=
  let r := transcribeAudio respond cancel D
  match r.2 with
  | .error _ =>
      if cancel (chunkCount D) then (.cancelled, none) else (.failed, none)
  | .ok vtt =>
      if cancel (chunkCount D) then (.cancelled, none)
      else if VTT_HEADER.length < vtt.length then (.completed, some vtt)
      else (.empty, none)

/-- The cue list the loop builds: one `(start, end, text)` triple per
chunk whose normalized response text is non-empty (line 244). -/
def cuesFrom (respond : ℕ → Option String) : ℕ → List (ℚ × ℚ) → List (ℚ × ℚ × String)
  | _, [] => []
  | k, r :: rest =>
      match respond k with
      | none => cuesFrom respond (k + 1) rest
      | some raw =>
          let t := normalizeText raw
          if t = "" then cuesFrom respond (k + 1) rest
          else (r.1, r.2, t) :: cuesFrom respond (k + 1) rest

/-- Concatenation of the cue blocks of a cue list. -/
def vttBody : List (ℚ × ℚ × String) → String
  | [] => ""
  | c :: cs => cueBlock c.1 c.2.1 c.2.2 ++ vttBody cs

/-- A caption document as claim C6 describes it: the header followed by
one block per cue. -/
def vttOfCues (cues : List (ℚ × ℚ × String)) : String := VTT_HEADER ++ vttBody cues

lemma str_append_empty (s : String) : s ++ "" = s := by
  cases s with
  | mk data =>
      show String.mk (data ++ []) = String.mk data
      rw [List.append_nil]

/-- Main loop lemma: if the cancellation flag reads false before every
chunk index below `K` and true from `K` on, and the remote call succeeds
on every index below `K`, then the loop starting at index `k` invokes
exactly the indices `k, ..., min K (k + length) - 1` and returns the
accumulator extended by the blocks of the cues of the first `K - k`
chunks. -/
lemma runChunks_run (respond : ℕ → Option String) (cancel : ℕ → Bool) (K : ℕ) :
    ∀ (cs : List (ℚ × ℚ)) (k : ℕ) (acc : String),
      (∀ j, k ≤ j → j < K → respond j ≠ none) →
      (∀ j, k ≤ j → j < k + cs.length → cancel j = decide (K ≤ j)) →
      runChunks respond cancel k cs acc =
        (List.range' k (min (K - k) cs.length),
         .ok (acc ++ vttBody (cuesFrom respond k (cs.take (K - k))))) := by
  intro cs
  induction cs with
  | nil =>
      intro k acc _ _
      simp [runChunks, cuesFrom, vttBody, str_append_empty]
  | cons r rest ih =>
      intro k acc hok hc
      by_cases hkK : K ≤ k
      · have hck : cancel k = true := by
          rw [hc k le_rfl (by simp)]
          simp [hkK]
        have hK0 : K - k = 0 := by omega
        simp [runChunks, hck, hK0, cuesFrom, vttBody, str_append_empty]
      · have hck : cancel k = false := by
          rw [hc k le_rfl (by simp)]
          simp [hkK]
        obtain ⟨raw, hraw⟩ : ∃ raw, respond k = some raw := by
          have h := hok k le_rfl (by omega)
          cases hr : respond k
          · exact absurd hr h
          · exact ⟨_, rfl⟩
        have hok' : ∀ j, k + 1 ≤ j → j < K → respond j ≠ none :=
          fun j h1 h2 => hok j (by omega) h2
        have hc' : ∀ j, k + 1 ≤ j → j < (k + 1) + rest.length → cancel j = decide (K ≤ j) :=
          fun j h1 h2 => hc j (by omega) (by simp only [List.length_cons]; omega)
        have hsub : K - k = (K - (k + 1)) + 1 := by omega
        have hmin : min (K - k) (r :: rest).length = min (K - (k + 1)) rest.length + 1 := by
          simp only [List.length_cons]
          omega
        rw [hmin, hsub]
        simp only [runChunks, hck, Bool.false_eq_true, if_false, hraw]
        rw [ih (k + 1)
          (if normalizeText raw = "" then acc else acc ++ cueBlock r.1 r.2 (normalizeText raw))
          hok' hc']
        simp only [List.range'_succ, List.take_succ_cons, cuesFrom, hraw]
        by_cases ht : normalizeText raw = ""
        · rw [if_pos ht, if_pos ht]
        · rw [if_neg ht, if_neg ht]
          simp only [vttBody, String.append_assoc]

/-- Failure lemma: with the cancellation flag never set, remote success
on every index below `f` and failure at `f`, the loop starting at `k`
invokes exactly `k, ..., f` and aborts with an error. -/
lemma runChunks_fail (respond : ℕ → Option String) (cancel : ℕ → Bool) :
    ∀ (cs : List (ℚ × ℚ)) (k f : ℕ) (acc : String),
      (∀ j, cancel j = false) →
      k ≤ f → f < k + cs.length →
      respond f = none →
      (∀ j, k ≤ j → j < f → respond j ≠ none) →
      runChunks respond cancel k cs acc = (List.range' k (f + 1 - k), .error ()) := by
  intro cs
  induction cs with
  | nil =>
      intro k f acc _ hkf hflt _ _
      simp at hflt
      omega
  | cons r rest ih =>
      intro k f acc hcan hkf hflt hfail hok
      rcases Nat.eq_or_lt_of_le hkf with heq | hlt
      · subst heq
        have : k + 1 - k = 1 := by omega
        simp [runChunks, hcan, hfail, this, List.range'_succ]
      · obtain ⟨raw, hraw⟩ : ∃ raw, respond k = some raw := by
          have h := hok k le_rfl hlt
          cases hr : respond k
          · exact absurd hr h
          · exact ⟨_, rfl⟩
        have hrec := ih (k + 1) f
          (if normalizeText raw = "" then acc else acc ++ cueBlock r.1 r.2 (normalizeText raw))
          hcan (by omega) (by simp at hflt ⊢; omega) hfail
          (fun j h1 h2 => hok j (by omega) h2)
        have hsub : f + 1 - k = (f + 1 - (k + 1)) + 1 := by omega
        rw [hsub]
        simp only [runChunks, hcan, Bool.false_eq_true, if_false, hraw, List.range'_succ]
        rw [hrec]

/-- Every cue the loop builds takes its `(start, end)` pair from one of
the chunk ranges and carries non-empty text. -/
lemma cuesFrom_mem (respond : ℕ → Option String) :
    ∀ (cs : List (ℚ × ℚ)) (k : ℕ) (c : ℚ × ℚ × String),
      c ∈ cuesFrom respond k cs → (c.1, c.2.1) ∈ cs ∧ c.2.2 ≠ "" := by
  intro cs
  induction cs with
  | nil =>
      intro k c hc
      simp [cuesFrom] at hc
  | cons r rest ih =>
      intro k c hc
      cases hraw : respond k with
      | none =>
          simp only [cuesFrom, hraw] at hc
          have h := ih (k + 1) c hc
          exact ⟨List.mem_cons_of_mem _ h.1, h.2⟩
      | some raw =>
          simp only [cuesFrom, hraw] at hc
          by_cases ht : normalizeText raw = ""
          · rw [if_pos ht] at hc
            have h := ih (k + 1) c hc
            exact ⟨List.mem_cons_of_mem _ h.1, h.2⟩
          · rw [if_neg ht] at hc
            rcases List.mem_cons.mp hc with hhd | htl
            · subst hhd
              exact ⟨by simp, ht⟩
            · have h := ih (k + 1) c htl
              exact ⟨List.mem_cons_of_mem _ h.1, h.2⟩

/-- Pairwise relations between chunk ranges descend to the cue list. -/
lemma cuesFrom_pairwise (respond : ℕ → Option String)
    (R : ℚ × ℚ → ℚ × ℚ → Prop) :
    ∀ (cs : List (ℚ × ℚ)) (k : ℕ), List.Pairwise R cs →
      List.Pairwise (fun a b => R (a.1, a.2.1) (b.1, b.2.1)) (cuesFrom respond k cs) := by
  intro cs
  induction cs with
  | nil =>
      intro k _
      simp [cuesFrom]
  | cons r rest ih =>
      intro k hp
      rw [List.pairwise_cons] at hp
      obtain ⟨hhead, hrest⟩ := hp
      cases hraw : respond k with
      | none =>
          simp only [cuesFrom, hraw]
          exact ih (k + 1) hrest
      | some raw =>
          simp only [cuesFrom, hraw]
          by_cases ht : normalizeText raw = ""
          · rw [if_pos ht]
            exact ih (k + 1) hrest
          · rw [if_neg ht]
            refine List.Pairwise.cons ?_ (ih (k + 1) hrest)
            intro c hcmem
            have hm := (cuesFrom_mem respond rest (k + 1) c hcmem).1
            simpa using hhead _ hm

/-- C6: with every remote call succeeding and no cancellation, the
document `transcribeAudio` builds is exactly the header followed by one
block per non-empty cue (blocks as in `cueBlock`: timestamp line, cue
text, blank-line separator); the cue list has strictly increasing start
times and no two cues overlap; every cue has non-empty text and both its
timestamps render in the zero-padded `HH:MM:SS.mmm` shape with exactly
three fractional digits. -/
theorem c6_document_structure (respond : ℕ → Option String) (D : ℚ)
    (hok : ∀ j, respond j ≠ none) :
    (transcribeAudio respond (fun _ => false) D).2 =
      .ok (vttOfCues (cuesFrom respond 0 (chunkRanges D))) ∧
    List.Pairwise (fun a b => a.1 < b.1 ∧ a.2.1 ≤ b.1)
      (cuesFrom respond 0 (chunkRanges D)) ∧
    (∀ c ∈ cuesFrom respond 0 (chunkRanges D),
        c.2.2 ≠ "" ∧
        (formatTimeVTT c.1).data.map charShape = vttStampShape ∧
        (formatTimeVTT c.2.1).data.map charShape = vttStampShape) := by
  refine ⟨?_, ?_, ?_⟩
  · have h := runChunks_run respond (fun _ => false) (chunkCount D) (chunkRanges D) 0
      VTT_HEADER (fun j _ _ => hok j)
      (fun j h1 h2 => by
        have hj : j < chunkCount D := by
          rw [Nat.zero_add, chunkRanges_length] at h2
          exact h2
        simp [Nat.not_le.mpr hj])
    rw [Nat.sub_zero, ← chunkRanges_length D, List.take_length] at h
    rw [transcribeAudio, h]
    rfl
  · have h := cuesFrom_pairwise respond (fun a b => a.1 < b.1 ∧ a.2 ≤ b.1)
      (chunkRanges D) 0 (chunkRanges_pairwise D)
    exact h.imp (fun hab => hab)
  · intro c hc
    have hm := cuesFrom_mem respond (chunkRanges D) 0 c hc
    exact ⟨hm.2, formatTimeVTT_shape c.1, formatTimeVTT_shape c.2.1⟩

/-- Concrete instance of C6: duration 65 with a constant echo oracle. -/
theorem c6_document_structure_witness :
    (transcribeAudio (fun _ => some "hello") (fun _ => false) 65).2 =
      .ok (vttOfCues (cuesFrom (fun _ => some "hello") 0 (chunkRanges 65))) ∧
    List.Pairwise (fun a b => a.1 < b.1 ∧ a.2.1 ≤ b.1)
      (cuesFrom (fun _ => some "hello") 0 (chunkRanges 65)) ∧
    (∀ c ∈ cuesFrom (fun _ => some "hello") 0 (chunkRanges 65),
        c.2.2 ≠ "" ∧
        (formatTimeVTT c.1).data.map charShape = vttStampShape ∧
        (formatTimeVTT c.2.1).data.map charShape = vttStampShape) :=
  c6_document_structure (fun _ => some "hello") 65 (fun _ => by simp)

/-- C8: cancellation is observed only at chunk boundaries.  If the flag
reads false up to and including the check before chunk `i` and true from
the next check on — the flag was set while chunk `i`'s remote call was in
flight — then chunk `i` is still invoked, its cue (when non-empty) is
still appended to the document, and exactly the chunks after `i` are
skipped. -/
theorem c8_cancel_is_boundary_checked (respond : ℕ → Option String) (D : ℚ) (i : ℕ)
    (hi : i < chunkCount D)
    (hok : ∀ j, respond j ≠ none) :
    (transcribeAudio respond (fun j => decide (i < j)) D).1 = List.range (i + 1) ∧
    i ∈ (transcribeAudio respond (fun j => decide (i < j)) D).1 ∧
    (∀ j, i < j → j ∉ (transcribeAudio respond (fun j => decide (i < j)) D).1) ∧
    (transcribeAudio respond (fun j => decide (i < j)) D).2 =
      .ok (vttOfCues (cuesFrom respond 0 ((chunkRanges D).take (i + 1)))) := by
  have h := runChunks_run respond (fun j => decide (i < j)) (i + 1) (chunkRanges D) 0
    VTT_HEADER (fun j _ _ => hok j)
    (fun j _ _ => decide_eq_decide.mpr (Iff.rfl))
  rw [Nat.sub_zero] at h
  have hmin : min (i + 1) (chunkRanges D).length = i + 1 := by
    rw [chunkRanges_length]
    omega
  rw [hmin] at h
  have htr : transcribeAudio respond (fun j => decide (i < j)) D =
      (List.range (i + 1),
       .ok (VTT_HEADER ++ vttBody (cuesFrom respond 0 ((chunkRanges D).take (i + 1))))) := by
    rw [transcribeAudio, h, List.range_eq_range']
  refine ⟨by rw [htr], ?_, ?_, by rw [htr]; rfl⟩
  · rw [htr]
    exact List.mem_range.mpr (Nat.lt_succ_self i)
  · intro j hj hmem
    rw [htr] at hmem
    have := List.mem_range.mp hmem
    omega

/-! Concrete evaluations used by the failure/cancellation scenarios. -/

lemma chunkCount_120 : chunkCount 120 = 4 := by
  have h : (⌈(120:ℚ) / CHUNK_SECONDS⌉ : ℤ) = 4 := by
    rw [show (CHUNK_SECONDS : ℚ) = 30 from rfl]
    exact ceil_eval (by norm_num) (by norm_num)
  rw [chunkCount, h]
  rfl

lemma chunkCount_65 : chunkCount 65 = 3 := by
  have h : (⌈(65:ℚ) / CHUNK_SECONDS⌉ : ℤ) = 3 := by
    rw [show (CHUNK_SECONDS : ℚ) = 30 from rfl]
    exact ceil_eval (by norm_num) (by norm_num)
  rw [chunkCount, h]
  rfl

lemma chunkRanges_120 :
    chunkRanges 120 = [(0, 30), (30, 60), (60, 90), (90, 120)] := by
  rw [chunkRanges_eq, chunkCount_120]
  rw [show List.range 4 = [0, 1, 2, 3] from rfl]
  simp only [List.map_cons, List.map_nil]
  norm_num [CHUNK_SECONDS, min_def]

lemma formatTimeVTT_0 : formatTimeVTT 0 = "00:00:00.000" := by
  have ht : jsTrunc (0:ℚ) = 0 :=
    jsTrunc_eval_nonneg le_rfl (by norm_num) (by norm_num)
  simp only [formatTimeVTT, ht]
  decide

lemma formatTimeVTT_30 : formatTimeVTT 30 = "00:00:30.000" := by
  have ht : jsTrunc (30:ℚ) = 30 :=
    jsTrunc_eval_nonneg (by norm_num) (by push_cast; norm_num) (by push_cast; norm_num)
  simp only [formatTimeVTT, ht]
  decide

lemma formatTimeVTT_60 : formatTimeVTT 60 = "00:01:00.000" := by
  have ht : jsTrunc (60:ℚ) = 60 :=
    jsTrunc_eval_nonneg (by norm_num) (by push_cast; norm_num) (by push_cast; norm_num)
  simp only [formatTimeVTT, ht]
  decide

lemma cueBlock_0_30 :
    cueBlock 0 30 "hello" = "00:00:00.000 --> 00:00:30.000\nhello\n\n" := by
  rw [cueBlock, formatTimeVTT_0, formatTimeVTT_30]
  decide

lemma cueBlock_30_60 :
    cueBlock 30 60 "hello" = "00:00:30.000 --> 00:01:00.000\nhello\n\n" := by
  rw [cueBlock, formatTimeVTT_30, formatTimeVTT_60]
  decide

/-- C4: if the remote call fails on the chunk of 0-based index `k` (all
earlier calls succeeding, no cancellation), the run ends in the failed
state, no document is surfaced (`generatedVttContent` stays null: the
cues accumulated before chunk `k` are discarded with the thrown
exception), and no chunk after `k` ever reaches the remote call. -/
theorem c4_failure_aborts (respond : ℕ → Option String) (D : ℚ) (k : ℕ)
    (hk : k < chunkCount D)
    (hfail : respond k = none)
    (hok : ∀ j, j < k → respond j ≠ none) :
    (generateSubtitles respond (fun _ => false) D).1 = Outcome.failed ∧
    (generateSubtitles respond (fun _ => false) D).2 = none ∧
    (transcribeAudio respond (fun _ => false) D).1 = List.range (k + 1) ∧
    (∀ j, k < j → j ∉ (transcribeAudio respond (fun _ => false) D).1) := by
  have h := runChunks_fail respond (fun _ => false) (chunkRanges D) 0 k VTT_HEADER
    (fun _ => rfl) (Nat.zero_le k)
    (by rw [Nat.zero_add, chunkRanges_length]; exact hk)
    hfail (fun j _ hj => hok j hj)
  have htr : transcribeAudio respond (fun _ => false) D =
      (List.range (k + 1), .error ()) := by
    rw [transcribeAudio, h, Nat.sub_zero, List.range_eq_range']
  refine ⟨?_, ?_, by rw [htr], ?_⟩
  · simp [generateSubtitles, htr]
  · simp [generateSubtitles, htr]
  · intro j hj hmem
    rw [htr] at hmem
    have := List.mem_range.mp hmem
    omega

/-- Concrete instance of C4: 4 chunks, remote failure on the second. -/
theorem c4_failure_aborts_witness :
    (generateSubtitles (fun j => if j = 1 then none else some "a")
        (fun _ => false) 120).1 = Outcome.failed ∧
    (generateSubtitles (fun j => if j = 1 then none else some "a")
        (fun _ => false) 120).2 = none ∧
    (transcribeAudio (fun j => if j = 1 then none else some "a")
        (fun _ => false) 120).1 = List.range 2 ∧
    (∀ j, 1 < j → j ∉ (transcribeAudio (fun j => if j = 1 then none else some "a")
        (fun _ => false) 120).1) :=
  c4_failure_aborts (fun j => if j = 1 then none else some "a") 120 1
    (by rw [chunkCount_120]; norm_num) (by simp)
    (fun j hj => by interval_cases j; simp)

/-- C3 amended: if the cancellation flag is set after the first `k` of
`n` chunks complete, the run terminates as cancelled and chunks
`k+1 .. n` never invoke the remote capability, and `transcribeAudio`
returns the partial document with the cues of chunks `1 .. k` — but
`generateSubtitles` discards that partial document: it is not stored and
not surfaced to the caller as a usable result. -/
theorem c3_cancel_discards_partial (respond : ℕ → Option String) (D : ℚ) (k : ℕ)
    (hk : k < chunkCount D)
    (hok : ∀ j, respond j ≠ none) :
    (generateSubtitles respond (fun i => decide (k ≤ i)) D).1 = Outcome.cancelled ∧
    (generateSubtitles respond (fun i => decide (k ≤ i)) D).2 = none ∧
    (transcribeAudio respond (fun i => decide (k ≤ i)) D).1 = List.range k ∧
    (transcribeAudio respond (fun i => decide (k ≤ i)) D).2 =
      .ok (vttOfCues (cuesFrom respond 0 ((chunkRanges D).take k))) := by
  have h := runChunks_run respond (fun i => decide (k ≤ i)) k (chunkRanges D) 0
    VTT_HEADER (fun j _ _ => hok j) (fun j _ _ => rfl)
  rw [Nat.sub_zero] at h
  have hmin : min k (chunkRanges D).length = k := by
    rw [chunkRanges_length]
    omega
  rw [hmin] at h
  have htr : transcribeAudio respond (fun i => decide (k ≤ i)) D =
      (List.range k,
       .ok (VTT_HEADER ++ vttBody (cuesFrom respond 0 ((chunkRanges D).take k)))) := by
    rw [transcribeAudio, h, List.range_eq_range']
  have hle : k ≤ chunkCount D := Nat.le_of_lt hk
  refine ⟨?_, ?_, by rw [htr], by rw [htr]; rfl⟩
  · simp [generateSubtitles, htr, hle]
  · simp [generateSubtitles, htr, hle]

/-- C3 as stated is false on the code: with 4 chunks, a constant echo
oracle and the cancellation flag set after chunk 2 completes, the run
does end cancelled and chunks 3-4 are never invoked, and the loop has
built the document with the two cues of chunks 1-2 — but the surfaced
result (`generatedVttContent`) is `none`: the partial caption document is
discarded by the early cancellation return, not kept for the caller. -/
theorem c3_counterexample :
    (generateSubtitles (fun _ => some "hello") (fun i => decide (2 ≤ i)) 120).1 =
      Outcome.cancelled ∧
    (generateSubtitles (fun _ => some "hello") (fun i => decide (2 ≤ i)) 120).2 = none ∧
    (transcribeAudio (fun _ => some "hello") (fun i => decide (2 ≤ i)) 120).2 =
      .ok ("WEBVTT\n\n00:00:00.000 --> 00:00:30.000\nhello\n\n00:00:30.000 --> 00:01:00.000\nhello\n\n") := by
  have h := runChunks_run (fun _ => some "hello") (fun i => decide (2 ≤ i)) 2
    (chunkRanges 120) 0 VTT_HEADER (fun j _ _ => by simp) (fun j _ _ => rfl)
  rw [Nat.sub_zero] at h
  have htr : transcribeAudio (fun _ => some "hello") (fun i => decide (2 ≤ i)) 120 =
      (List.range' 0 (min 2 (chunkRanges 120).length),
       .ok (VTT_HEADER ++
         vttBody (cuesFrom (fun _ => some "hello") 0 ((chunkRanges 120).take 2)))) := by
    rw [transcribeAudio, h]
  have hdoc : (chunkRanges 120).take 2 = [((0:ℚ), (30:ℚ)), ((30:ℚ), (60:ℚ))] := by
    rw [chunkRanges_120]
    rfl
  have hh : normalizeText "hello" = "hello" := by decide
  have hcues : cuesFrom (fun _ => some "hello") 0 [((0:ℚ), (30:ℚ)), ((30:ℚ), (60:ℚ))] =
      [((0:ℚ), (30:ℚ), "hello"), ((30:ℚ), (60:ℚ), "hello")] := by
    simp only [cuesFrom, hh]
    rw [if_neg (by decide : ¬ ("hello" : String) = ""),
        if_neg (by decide : ¬ ("hello" : String) = "")]
  have hbody : vttBody [((0:ℚ), (30:ℚ), "hello"), ((30:ℚ), (60:ℚ), "hello")] =
      cueBlock 0 30 "hello" ++ (cueBlock 30 60 "hello" ++ "") := rfl
  refine ⟨?_, ?_, ?_⟩
  · simp [generateSubtitles, htr, chunkCount_120]
  · simp [generateSubtitles, htr, chunkCount_120]
  · rw [htr]
    show Except.ok (VTT_HEADER ++
        vttBody (cuesFrom (fun _ => some "hello") 0 ((chunkRanges 120).take 2))) = _
    rw [hdoc, hcues, hbody, cueBlock_0_30, cueBlock_30_60]
    exact congrArg Except.ok (by decide)

/-- Concrete instance of the amended C3: 4 chunks, flag set after the
first two complete. -/
theorem c3_cancel_discards_partial_witness :
    (generateSubtitles (fun _ => some "hello") (fun i => decide (2 ≤ i)) 120).1 =
      Outcome.cancelled ∧
    (generateSubtitles (fun _ => some "hello") (fun i => decide (2 ≤ i)) 120).2 = none ∧
    (transcribeAudio (fun _ => some "hello") (fun i => decide (2 ≤ i)) 120).1 =
      List.range 2 ∧
    (transcribeAudio (fun _ => some "hello") (fun i => decide (2 ≤ i)) 120).2 =
      .ok (vttOfCues (cuesFrom (fun _ => some "hello") 0 ((chunkRanges 120).take 2))) :=
  c3_cancel_discards_partial (fun _ => some "hello") 120 2
    (by rw [chunkCount_120]; norm_num) (fun _ => by simp)

/-- Concrete instance of C8: 3 chunks, flag set while chunk 2 (0-based
index 1) is in flight. -/
theorem c8_cancel_is_boundary_checked_witness :
    (transcribeAudio (fun _ => some "hello") (fun j => decide (1 < j)) 65).1 =
      List.range 2 ∧
    1 ∈ (transcribeAudio (fun _ => some "hello") (fun j => decide (1 < j)) 65).1 ∧
    (∀ j, 1 < j →
      j ∉ (transcribeAudio (fun _ => some "hello") (fun j => decide (1 < j)) 65).1) ∧
    (transcribeAudio (fun _ => some "hello") (fun j => decide (1 < j)) 65).2 =
      .ok (vttOfCues (cuesFrom (fun _ => some "hello") 0 ((chunkRanges 65).take 2))) :=
  c8_cancel_is_boundary_checked (fun _ => some "hello") 65 1
    (by rw [chunkCount_65]; norm_num) (fun _ => by simp)

end SubGen
